import Mathlib

/-!
Verification of the goshl segment-production core against its
natural-language specification.

Modelling conventions for the shallow embedding:
* times (keyframe PTS, durations, seconds) are rationals `ℚ` standing for
  the Go `float64` values; all concrete inputs used below are exactly
  representable,
* Go `int` is `Int`; the Go conversion `int(x)` from `float64` is
  truncation toward zero (`ratTrunc`),
* Go strings manipulated character by character (the worker's filename
  parsing) are `List Char`; strings that are only built by concatenation
  (playlists, error texts) are Lean `String`,
* side effects (storage writes, coordinator notifications, job
  acknowledgements, file removals) are recorded as explicit event lists,
  and each fallible external call is an oracle parameter giving that
  call's outcome.
-/

namespace Goshl

/-- Go `domain.PlaybackMethod` (`direct_play`, `direct_stream`, `transcode`). -/
inductive PlaybackMethod
  | directPlay
  | directStream
  | transcode
  deriving DecidableEq

/-- Go `domain.StreamType` (`video`, `audio`, `subtitle`). -/
inductive StreamType
  | video
  | audio
  | subtitle
  deriving DecidableEq

/-- Go `domain.Segment`: `Index int`, `Start`, `End`, `Duration float64`. -/
structure Segment where
  index : Int
  start : ℚ
  «end» : ℚ
  duration : ℚ
  deriving DecidableEq

instance : Inhabited Segment := ⟨⟨0, 0, 0, 0⟩⟩

/-- Go `domain.SegmentState` (`SegmentStateReady`, `SegmentStateError`). -/
inductive SegmentState
  | ready
  | error
  deriving DecidableEq

/-- Go `domain.SegmentStatus`. -/
structure SegmentStatus where
  state : SegmentState
  error : String
  deriving DecidableEq

/-- Go `domain.SegmentData`.  The pool and the worker populate only
`SourceURL`, `Index`, `Rendition` and `IsVideo`; the remaining fields stay
at their Go zero values. -/
structure SegmentData where
  sourceURL : String
  index : Int
  startPTS : Nat
  endPTS : Nat
  duration : ℚ
  rendition : String
  isVideo : Bool
  deriving DecidableEq

/-- Go `domain.Job`. -/
structure Job where
  id : String
  sourceURL : String
  rendition : String
  streamType : StreamType
  startIndex : Int
  endIndex : Int
  deriving DecidableEq

/-- Go `domain.VideoStream`. -/
structure VideoStream where
  index : Int
  codec : String
  width : Int
  height : Int
  bitrate : Int
  frameRate : ℚ
  deriving DecidableEq

/-- Go `domain.AudioStream`. -/
structure AudioStream where
  index : Int
  codec : String
  language : String
  channels : Int
  bitrate : Int
  deriving DecidableEq

/-- Go `domain.SubtitleStream`. -/
structure SubtitleStream where
  index : Int
  codec : String
  language : String
  forced : Bool
  deriving DecidableEq

/-- Go `domain.Metadata`. -/
structure Metadata where
  duration : ℚ
  keyframes : List ℚ
  video : VideoStream
  audios : List AudioStream
  subtitles : List SubtitleStream
  deriving DecidableEq

/-- Go `domain.VideoRendition`. -/
structure VideoRendition where
  name : String
  width : Int
  height : Int
  bitrate : Int
  method : PlaybackMethod
  deriving DecidableEq

instance : Inhabited VideoRendition := ⟨⟨"", 0, 0, 0, .transcode⟩⟩

/-- Go `domain.AudioRendition`. -/
structure AudioRendition where
  name : String
  codec : String
  bitrate : Int
  channels : Int
  method : PlaybackMethod
  deriving DecidableEq

/-! ## Segmenter (`internal/playlist/segment.go`) -/

/-- The loop of `playlist.CalculateSegments` (segment.go lines 14-27):
walks the keyframes after the first with the moving `segmentStart` cursor
and `segmentIndex` counter; returns the closed segments together with the
final cursor and counter. -/
def calcSegmentsLoop (targetDuration : ℚ) :
    List ℚ → ℚ → Int → List Segment × ℚ × Int
  | [], segmentStart, segmentIndex => ([], segmentStart, segmentIndex)
  | k :: rest, segmentStart, segmentIndex =>
    if k - segmentStart ≥ targetDuration then
      let r := calcSegmentsLoop targetDuration rest k (segmentIndex + 1)
      (⟨segmentIndex, segmentStart, k, k - segmentStart⟩ :: r.1, r.2)
    else
      calcSegmentsLoop targetDuration rest segmentStart segmentIndex

/-- Go `playlist.CalculateSegments(keyframes, duration, targetDuration)`:
empty keyframes give `nil`; otherwise run the loop from `keyframes[0]`,
then emit the tail segment `[segmentStart, duration)` iff
`segmentStart < duration`. -/
def CalculateSegments (keyframes : List ℚ) (duration targetDuration : ℚ) :
    List Segment :=
  match keyframes with
  | [] => []
  | k0 :: rest =>
    let r := calcSegmentsLoop targetDuration rest k0 0
    if r.2.1 < duration then
      r.1 ++ [⟨r.2.2, r.2.1, duration, duration - r.2.1⟩]
    else
      r.1

/-! ## Rendition planner (`internal/rendition/rendition.go`) -/

/-- Go `int(x)` conversion from `float64`: truncation toward zero. -/
def ratTrunc (q : ℚ) : Int := if q < 0 then ⌈q⌉ else ⌊q⌋

/-- rendition.go `targetHeights`. -/
def targetHeights : List Int := [2160, 1080, 720, 480, 360]

/-- rendition.go `bitrateBounds` (a Go map; lookup order is irrelevant). -/
def bitrateBounds (height : Int) : Option (Int × Int) :=
  if height = 2160 then some (8000000, 20000000)
  else if height = 1080 then some (2000000, 8000000)
  else if height = 720 then some (1000000, 4000000)
  else if height = 480 then some (500000, 2000000)
  else if height = 360 then some (300000, 1000000)
  else none

/-- rendition.go `directStreamCodecs` (the allow-list `{h264}`). -/
def directStreamCodecs (codec : String) : Bool := codec == "h264"

/-- rendition.go `estimateBitrate`. -/
def estimateBitrate (height : Int) : Int :=
  if height ≥ 2160 then 15000000
  else if height ≥ 1080 then 5000000
  else if height ≥ 720 then 2500000
  else if height ≥ 480 then 1200000
  else 800000

/-- rendition.go `calculateWidth`: `int(float64(targetHeight) * aspectRatio)`
rounded up to the next even integer when odd.  Go `%` on `int` is truncated
remainder, hence `Int.tmod`. -/
def calculateWidth (srcWidth srcHeight targetHeight : Int) : Int :=
  let aspectRatio : ℚ := (srcWidth : ℚ) / (srcHeight : ℚ)
  let width := ratTrunc ((targetHeight : ℚ) * aspectRatio)
  if Int.tmod width 2 ≠ 0 then width + 1 else width

/-- rendition.go `clampBitrate`. -/
def clampBitrate (height bitrate : Int) : Int :=
  match bitrateBounds height with
  | none => bitrate
  | some (mn, mx) =>
    if bitrate < mn then mn
    else if bitrate > mx then mx
    else bitrate

/-- rendition.go `GenerateVideo`: one rendition per target height not
exceeding the source height. -/
def GenerateVideo (video : VideoStream) : List VideoRendition :=
  let srcWidth := video.width
  let srcHeight := video.height
  let srcPixels := srcWidth * srcHeight
  let srcCodec := video.codec
  let srcBitrate := if video.bitrate ≤ 0 then estimateBitrate srcHeight else video.bitrate
  (targetHeights.filter (fun targetHeight => ¬ targetHeight > srcHeight)).map
    (fun targetHeight =>
      let targetWidth := calculateWidth srcWidth srcHeight targetHeight
      let targetPixels := targetWidth * targetHeight
      let ratio : ℚ := (targetPixels : ℚ) / (srcPixels : ℚ)
      let bitrate := ratTrunc ((srcBitrate : ℚ) * ratio)
      let bitrate := clampBitrate targetHeight bitrate
      let method :=
        if directStreamCodecs srcCodec ∧ targetHeight = srcHeight then
          PlaybackMethod.directStream
        else
          PlaybackMethod.transcode
      { name := toString targetHeight ++ "p"
        width := targetWidth
        height := targetHeight
        bitrate := bitrate
        method := method })

/-- rendition.go `passthroughCodecs` (the allow-list `{ac3, eac3}`). -/
def passthroughCodecs (codec : String) : Bool := codec == "ac3" || codec == "eac3"

/-- rendition.go `GenerateAudio`. -/
def GenerateAudio (audio : AudioStream) : List AudioRendition :=
  [⟨"aac_stereo", "aac", 128000, 2, .transcode⟩]
  ++ (if audio.channels ≥ 6 then [⟨"aac_surround", "aac", 384000, 6, .transcode⟩] else [])
  ++ (if passthroughCodecs audio.codec then
        [⟨audio.codec ++ "_passthrough", audio.codec, audio.bitrate, audio.channels,
          .directStream⟩]
      else [])

/-! ## Pool (`internal/transcode/pool.go`) -/

/-- The inner `for j` loop of `pool.extractSegments` (pool.go lines
214-220): the first index `j ≥ start index` whose keyframe closes the
current segment (`keyframes[j] - start ≥ targetDuration`), if any. -/
def scanClose (kf : List ℚ) (start td : ℚ) (j : Nat) : Option Nat :=
  if h : j < kf.length then
    if kf.getD j 0 - start ≥ td then some j else scanClose kf start td (j + 1)
  else none
termination_by kf.length - j

theorem scanClose_bounds (kf : List ℚ) (start td : ℚ) :
    ∀ j j', scanClose kf start td j = some j' → j ≤ j' ∧ j' < kf.length := by
  have H : ∀ n j j', kf.length - j ≤ n →
      scanClose kf start td j = some j' → j ≤ j' ∧ j' < kf.length := by
    intro n
    induction n with
    | zero =>
      intro j j' hn h
      rw [scanClose] at h
      split at h
      · split at h
        · obtain rfl := Option.some.inj h
          exact ⟨le_rfl, by assumption⟩
        · omega
      · exact absurd h (by simp)
    | succ n ih =>
      intro j j' hn h
      rw [scanClose] at h
      split at h
      · split at h
        · obtain rfl := Option.some.inj h
          exact ⟨le_rfl, by assumption⟩
        · have := ih (j + 1) j' (by omega) h
          omega
      · exact absurd h (by simp)
  intro j j'
  exact H (kf.length - j) j j' le_rfl

/-- The state of `pool.extractSegments` after its inner loop (pool.go
lines 211-220): the sentinel `end` value (`0` when no keyframe closed the
segment) and the possibly rewound outer index `i = j - 1`. -/
def innerScan (kf : List ℚ) (start : ℚ) (i : Nat) : ℚ × Nat :=
  match scanClose kf start 6 (i + 1) with
  | some j => (kf.getD j 0, j - 1)
  | none => (0, i)

/-- The `end == 0` fix-up of `pool.extractSegments` (pool.go lines
222-229): when not at the last keyframe, close at the last keyframe and
push `i` past the end of the list; otherwise close at `duration`. -/
def fixupEnd (kf : List ℚ) (duration : ℚ) (p : ℚ × Nat) : ℚ × Nat :=
  if p.1 = 0 then
    if p.2 < kf.length - 1 then (kf.getD (kf.length - 1) 0, kf.length) else (duration, p.2)
  else p

theorem fixupEnd_innerScan_ge (kf : List ℚ) (duration start : ℚ) (i : Nat)
    (hi : i < kf.length) : i ≤ (fixupEnd kf duration (innerScan kf start i)).2 := by
  unfold innerScan
  cases hscan : scanClose kf start 6 (i + 1) with
  | none =>
    unfold fixupEnd
    dsimp only
    split
    · split
      · omega
      · exact le_rfl
    · exact le_rfl
  | some j =>
    have hj := scanClose_bounds kf start 6 (i + 1) j hscan
    unfold fixupEnd
    dsimp only
    split
    · split
      · omega
      · omega
    · omega

/-- The outer loop of `pool.extractSegments` (pool.go lines 210-244),
recursing on the outer index `i` and segment counter `idx`. -/
def extractLoop (kf : List ℚ) (duration : ℚ) (startIdx endIdx : Int)
    (i : Nat) (idx : Int) : List Segment :=
  if hi : i < kf.length then
    let start := kf.getD i 0
    let p := fixupEnd kf duration (innerScan kf start i)
    let seg : List Segment :=
      if startIdx ≤ idx ∧ idx ≤ endIdx then [⟨idx, start, p.1, p.1 - start⟩] else []
    if idx + 1 > endIdx then seg
    else seg ++ extractLoop kf duration startIdx endIdx (p.2 + 1) (idx + 1)
  else []
termination_by kf.length + 1 - i
decreasing_by
  have := fixupEnd_innerScan_ge kf duration (kf.getD i 0) i hi
  omega

/-- Go `pool.extractSegments(keyframes, duration, startIdx, endIdx)`
(pool.go lines 205-247); note the hard-coded `targetDuration := 6.0`. -/
def extractSegments (keyframes : List ℚ) (duration : ℚ) (startIdx endIdx : Int) :
    List Segment :=
  extractLoop keyframes duration startIdx endIdx 0 0

/-- The loop of `pool.findNearestKeyframe` (pool.go lines 297-304):
carries `(prevKeyframe, result)` and stops at the first keyframe above
`target + 0.001`. -/
def findLoop (target : ℚ) : List ℚ → ℚ → ℚ → ℚ × ℚ
  | [], prevKeyframe, result => (prevKeyframe, result)
  | kf :: rest, prevKeyframe, result =>
    if kf ≤ target + 1/1000 then findLoop target rest result kf
    else (prevKeyframe, result)

/-- Go `pool.findNearestKeyframe(keyframes, target)` (pool.go lines
290-310). -/
def findNearestKeyframe (keyframes : List ℚ) (target : ℚ) : ℚ :=
  match keyframes with
  | [] => 0
  | _ :: _ =>
    let p := findLoop target keyframes 0 0
    if p.1 > 0 ∧ target - p.2 < 1/100 then p.1 else p.2

/-- Go `rendition.GenerateVideo` lookup in `pool.findVideoRendition`
(pool.go lines 249-257): first generated video rendition with the given
name. -/
def findVideoRendition (meta : Metadata) (name : String) : Option VideoRendition :=
  (GenerateVideo meta.video).find? (fun r => r.name == name)

/-- Go `pool.findAudioRendition` (pool.go lines 259-271). -/
def findAudioRendition (meta : Metadata) (name : String) : Option AudioRendition :=
  match meta.audios with
  | [] => none
  | a :: _ => (GenerateAudio a).find? (fun r => r.name == name)

/-- Observable pool effects: coordinator notifications and job
acknowledgements. -/
inductive PoolEvent
  | notify (info : SegmentData) (status : SegmentStatus)
  | ack (jobID : String)
  deriving DecidableEq

/-- The Go loop `for i := start; i <= end; i++` over `Int`. -/
def intRangeIncl (start stop : Int) : List Int :=
  (List.range (stop + 1 - start).toNat).map (fun n => start + n)

/-- Go `pool.publishError` (pool.go lines 273-288): one error notification
per index of the job's inclusive range. -/
def publishError (streamType : StreamType) (job : Job) (errMsg : String) :
    List PoolEvent :=
  (intRangeIncl job.startIndex job.endIndex).map (fun i =>
    .notify
      ⟨job.sourceURL, i, 0, 0, 0, job.rendition, streamType = StreamType.video⟩
      ⟨.error, errMsg⟩)

/-- Go `pool.processJob` (pool.go lines 94-171), as the list of pool
events it emits.  Oracle parameters: `metaResult` is the outcome of
`GetMetadata` plus JSON unmarshalling, `tmpDirResult` of `os.MkdirTemp`,
and `workerStartErr` of `Worker.Start`.  The ffmpeg argument construction
emits no events; the direct-stream seek-keyframe computation is kept for
fidelity. -/
def processJob (streamType : StreamType) (metaResult : Except String Metadata)
    (tmpDirResult : Except String String) (workerStartErr : Option String)
    (job : Job) : List PoolEvent :=
  match metaResult with
  | .error e => publishError streamType job e
  | .ok meta =>
    let segments := extractSegments meta.keyframes meta.duration job.startIndex job.endIndex
    if segments = [] then
      publishError streamType job
        ("no segments for range " ++ toString job.startIndex ++ "-" ++ toString job.endIndex)
    else
      match tmpDirResult with
      | .error e => publishError streamType job ("create temp dir: " ++ e)
      | .ok _tmpDir =>
        if streamType = StreamType.video then
          match findVideoRendition meta job.rendition with
          | none =>
            publishError streamType job ("video rendition " ++ job.rendition ++ " not found")
          | some videoRendition =>
            let overlapSegments :=
              if job.startIndex > 0 then
                extractSegments meta.keyframes meta.duration (job.startIndex - 1) job.endIndex
              else []
            let videoSegments :=
              if job.startIndex > 0 ∧ overlapSegments.length > segments.length then
                overlapSegments
              else segments
            let _actualSeekKeyframe :=
              if videoRendition.method = PlaybackMethod.directStream ∧ videoSegments ≠ [] then
                findNearestKeyframe meta.keyframes (videoSegments.headD default).start
              else 0
            match workerStartErr with
            | some e => publishError streamType job e
            | none => [.ack job.id]
        else
          match findAudioRendition meta job.rendition with
          | none =>
            publishError streamType job ("audio rendition " ++ job.rendition ++ " not found")
          | some _ =>
            match workerStartErr with
            | some e => publishError streamType job e
            | none => [.ack job.id]

/-! ## Notifying storage (`internal/segment/notifying_storage.go`) -/

/-- Observable effects of the notifying store facade. -/
inductive StoreEvent
  | writeSegment (info : SegmentData) (data : List (Fin 256))
  | notifySegment (info : SegmentData) (status : SegmentStatus)
  deriving DecidableEq

/-- Go `NotifyingStorage.WriteSegment` (notifying_storage.go lines 34-50),
as its event list and returned error.  Oracles: `writeErr` is the outcome
of the underlying `storage.WriteSegment`, `notifyErrResult` of the
`NotifySegment` publishing the error status (its outcome is discarded by
the Go code), `notifyReadyResult` of the `NotifySegment` publishing the
ready status. -/
def notifyingWriteSegment (writeErr : Option String) (notifyErrResult : Option String)
    (notifyReadyResult : Option String) (info : SegmentData) (data : List (Fin 256)) :
    List StoreEvent × Option String :=
  match writeErr with
  | some e =>
    let _ := notifyErrResult
    ([.writeSegment info data, .notifySegment info ⟨.error, e⟩],
     some ("storage write: " ++ e))
  | none =>
    match notifyReadyResult with
    | some e =>
      ([.writeSegment info data, .notifySegment info ⟨.ready, ""⟩],
       some ("notify segment: " ++ e))
    | none =>
      ([.writeSegment info data, .notifySegment info ⟨.ready, ""⟩], none)

/-! ## Worker (`internal/transcode/worker.go`) -/

/-- Go `strings.Split(s, "-")` for the one-character separator used by the
worker, over `List Char`. -/
def splitOnChar (sep : Char) : List Char → List (List Char)
  | [] => [[]]
  | c :: rest =>
    let r := splitOnChar sep rest
    if c = sep then [] :: r
    else
      match r with
      | [] => [[c]]
      | g :: gs => (c :: g) :: gs

/-- Go `strconv.Atoi` digit run (no sign).  An empty digit list or any
non-digit character is an error. -/
def atoiDigits (cs : List Char) : Option Nat :=
  if cs = [] then none
  else
    cs.foldl
      (fun acc c =>
        match acc with
        | none => none
        | some n => if c.isDigit then some (n * 10 + (c.toNat - 48)) else none)
      (some 0)

/-- Go `strconv.Atoi`: optional sign followed by digits.  (Go additionally
rejects values outside the machine-int range, which cannot occur for the
small indices handled here.) -/
def atoi : List Char → Option Int
  | [] => none
  | c :: rest =>
    if c = '-' then (atoiDigits rest).map (fun n => -(n : Int))
    else if c = '+' then (atoiDigits rest).map (fun n => (n : Int))
    else (atoiDigits (c :: rest)).map (fun n => (n : Int))

/-- Go `parseSegmentIndex` (worker.go lines 162-169): strip a `.ts`
suffix, split on `-`, parse the last part as an integer; fewer than two
parts is an error. -/
def parseSegmentIndex (filename : List Char) : Option Int :=
  let name :=
    if (".ts").data.isSuffixOf filename then filename.take (filename.length - 3)
    else filename
  let parts := splitOnChar ('-') name
  if parts.length < 2 then none
  else atoi (parts.getLastD [])

/-- Go `strings.TrimSpace` over `List Char`. -/
def goTrimSpace (s : List Char) : List Char :=
  ((s.dropWhile Char.isWhitespace).reverse.dropWhile Char.isWhitespace).reverse

/-- Observable worker effects: file reads, segment uploads, file
removals. -/
inductive WorkerEvent
  | readFile (filename : List Char)
  | writeSegment (info : SegmentData) (data : List (Fin 256))
  | removeFile (filename : List Char)
  deriving DecidableEq

/-- Go `Worker.run` + `Worker.uploadSegment` (worker.go lines 83-160), as
the list of worker events produced while consuming the scanner's lines.
Oracles: `readResult` is the outcome of `os.ReadFile` for a filename,
`writeResult` the outcome of `storage.WriteSegment`.  A failing read or
write short-circuits the loop (`setError`); an unparseable filename is
skipped silently; the first non-empty line is deleted unuploaded when
`skipFirst` is set. -/
def runLines (readResult : List Char → Option (List (Fin 256)))
    (writeResult : SegmentData → Option String)
    (sourceURL rendition : String) (isVideo : Bool) :
    List (List Char) → Bool → List WorkerEvent
  | [], _ => []
  | line :: rest, skipFirst =>
    let filename := goTrimSpace line
    if filename = [] then
      runLines readResult writeResult sourceURL rendition isVideo rest skipFirst
    else if skipFirst then
      .removeFile filename ::
        runLines readResult writeResult sourceURL rendition isVideo rest false
    else
      match parseSegmentIndex filename with
      | none => runLines readResult writeResult sourceURL rendition isVideo rest skipFirst
      | some idx =>
        match readResult filename with
        | none => [.readFile filename]
        | some data =>
          let info : SegmentData := ⟨sourceURL, idx, 0, 0, 0, rendition, isVideo⟩
          match writeResult info with
          | some _ => [.readFile filename, .writeSegment info data]
          | none =>
            .readFile filename :: .writeSegment info data :: .removeFile filename ::
              runLines readResult writeResult sourceURL rendition isVideo rest skipFirst

/-- The indices of the `WriteSegment` calls among a worker event list. -/
def writeIndices (events : List WorkerEvent) : List Int :=
  events.filterMap (fun e =>
    match e with
    | .writeSegment info _ => some info.index
    | _ => none)

/-! ## Playlist generator (`internal/playlist/generator.go`) -/

/-- Go `domain.PathGenerator` (the parts the generator uses). -/
structure PathGenerator where
  masterPlaylist : String → String
  variantPlaylist : String → String → StreamType → String
  segment : String → String → StreamType → Int → String

/-- generator.go `defaultFlag`. -/
def defaultFlag (isDefault : Bool) : String := if isDefault then "YES" else "NO"

/-- generator.go `videoCodecString`. -/
def videoCodecString (video : VideoRendition) : String :=
  if video.height = 2160 then "avc1.640033"
  else if video.height = 1080 then "avc1.640028"
  else if video.height = 720 then "avc1.64001f"
  else if video.height = 480 then "avc1.64001e"
  else "avc1.640015"

/-- generator.go `audioCodecString`. -/
def audioCodecString : String := "mp4a.40.2"

/-- generator.go `audioGroupID := "audio"` in `Master`. -/
def audioGroupID : String := "audio"

/-- One `#EXT-X-MEDIA` line of `Generator.Master` (generator.go lines
27-35). -/
def mediaLine (pg : PathGenerator) (sourceURL : String) (audio : AudioRendition) :
    String :=
  "#EXT-X-MEDIA:TYPE=AUDIO,GROUP-ID=\"" ++ audioGroupID ++ "\",NAME=\"" ++ audio.name
    ++ "\",DEFAULT=" ++ defaultFlag (audio.name == "aac_stereo")
    ++ ",AUTOSELECT=YES,URI=\"" ++ pg.variantPlaylist sourceURL audio.name StreamType.audio
    ++ "\""

/-- One `#EXT-X-STREAM-INF` line of `Generator.Master` (generator.go lines
42-50). -/
def streamInfLine (video : VideoRendition) : String :=
  "#EXT-X-STREAM-INF:BANDWIDTH=" ++ toString video.bitrate ++ ",RESOLUTION="
    ++ toString video.width ++ "x" ++ toString video.height ++ ",CODECS=\""
    ++ videoCodecString video ++ "," ++ audioCodecString ++ "\",AUDIO=\""
    ++ audioGroupID ++ "\""

/-- Go `Generator.Master` (generator.go lines 19-56) as its list of output
lines: the builder writes each of these strings followed by a newline. -/
def masterLines (pg : PathGenerator) (sourceURL : String)
    (videos : List VideoRendition) (audios : List AudioRendition) : List String :=
  ["#EXTM3U", "#EXT-X-VERSION:4", ""]
  ++ audios.map (mediaLine pg sourceURL)
  ++ (if audios.length > 0 then [""] else [])
  ++ videos.flatMap (fun v =>
      [streamInfLine v, pg.variantPlaylist sourceURL v.name StreamType.video])

/-! ## Specification-side definitions -/

/-- The segmentation rule as worded in the spec (§4.2): walk the keyframe
list with a moving `segment_start` cursor; the first subsequent keyframe
`k` with `k - segment_start ≥ target_duration` closes `[segment_start, k)`
and becomes the cursor; when no further keyframe satisfies the rule and
`segment_start < duration`, one final tail segment `[segment_start,
duration)` is emitted. -/
def walkSegments (targetDuration duration : ℚ) :
    ℚ → List ℚ → Int → List Segment
  | segmentStart, [], i =>
    if segmentStart < duration then
      [⟨i, segmentStart, duration, duration - segmentStart⟩]
    else []
  | segmentStart, k :: rest, i =>
    if k - segmentStart ≥ targetDuration then
      ⟨i, segmentStart, k, k - segmentStart⟩ :: walkSegments targetDuration duration k rest (i + 1)
    else walkSegments targetDuration duration segmentStart rest i

/-- The spec's `round_up_even(x)` (§4.3): the smallest even integer
greater than or equal to `x`. -/
def roundUpEvenSpec (q : ℚ) : Int := if ⌈q⌉ % 2 = 0 then ⌈q⌉ else ⌈q⌉ + 1

/-- Segment lists that chain from a start time to an end time:
each segment starts where its predecessor ended. -/
def Chained : ℚ → List Segment → ℚ → Prop
  | s, [], e => s = e
  | s, seg :: rest, e => seg.start = s ∧ Chained seg.«end» rest e

/-- Segment lists carrying consecutive indices from `i`. -/
def IndexedFrom : Int → List Segment → Prop
  | _, [] => True
  | i, seg :: rest => seg.index = i ∧ IndexedFrom (i + 1) rest

/-! ## Helper lemmas -/

theorem calcSegmentsLoop_eq_walk (td dur : ℚ) :
    ∀ (ks : List ℚ) (s : ℚ) (i : Int),
      walkSegments td dur s ks i =
        (calcSegmentsLoop td ks s i).1 ++
          (if (calcSegmentsLoop td ks s i).2.1 < dur then
            [⟨(calcSegmentsLoop td ks s i).2.2, (calcSegmentsLoop td ks s i).2.1, dur,
              dur - (calcSegmentsLoop td ks s i).2.1⟩]
          else []) := by
  intro ks
  induction ks with
  | nil => intro s i; simp [walkSegments, calcSegmentsLoop]
  | cons k rest ih =>
    intro s i
    by_cases h : k - s ≥ td
    · simp [walkSegments, calcSegmentsLoop, h, ih]
    · simp [walkSegments, calcSegmentsLoop, h, ih]

theorem calculateSegments_eq_walk (k0 : ℚ) (rest : List ℚ) (dur td : ℚ) :
    CalculateSegments (k0 :: rest) dur td = walkSegments td dur k0 rest 0 := by
  rw [calcSegmentsLoop_eq_walk]
  simp only [CalculateSegments]
  split <;> simp

theorem chain'_le_mem_getLastD :
    ∀ (l : List ℚ), l.Chain' (· ≤ ·) → ∀ d x, x ∈ l → x ≤ l.getLastD d := by
  intro l
  induction l with
  | nil => intro _ d x hx; simp at hx
  | cons a rest ih =>
    intro hc d x hx
    rw [List.getLastD_cons]
    rcases List.mem_cons.mp hx with rfl | hx
    · cases rest with
      | nil => simp
      | cons b rest' =>
        have hab : x ≤ b := (List.chain'_cons.mp hc).1
        have hb := ih (List.chain'_cons.mp hc).2 x b (by simp)
        exact le_trans hab hb
    · exact ih (List.chain'_cons'.mp hc).2 a x hx

theorem walkSegments_invariants (td dur : ℚ) :
    ∀ (ks : List ℚ) (s : ℚ) (i : Int), (∀ x ∈ s :: ks, x < dur) →
      walkSegments td dur s ks i ≠ [] ∧
      Chained s (walkSegments td dur s ks i) dur ∧
      IndexedFrom i (walkSegments td dur s ks i) := by
  intro ks
  induction ks with
  | nil =>
    intro s i h
    have hs : s < dur := h s (by simp)
    simp [walkSegments, hs, Chained, IndexedFrom]
  | cons k rest ih =>
    intro s i h
    by_cases hk : k - s ≥ td
    · have hsub : ∀ x ∈ k :: rest, x < dur := by
        intro x hx
        exact h x (by simpa using Or.inr (by simpa using hx))
      have := ih k (i + 1) hsub
      refine ⟨by simp [walkSegments, hk], ?_, ?_⟩
      · simpa [walkSegments, hk, Chained] using this.2.1
      · simpa [walkSegments, hk, IndexedFrom] using this.2.2
    · have hsub : ∀ x ∈ s :: rest, x < dur := by
        intro x hx
        rcases List.mem_cons.mp hx with rfl | hx
        · exact h x (by simp)
        · exact h x (by simp [hx])
      have := ih s i hsub
      simpa [walkSegments, hk] using this

theorem Chained.head_start {s e : ℚ} {l : List Segment} (h : Chained s l e)
    (hne : l ≠ []) : (l.headD default).start = s := by
  cases l with
  | nil => exact absurd rfl hne
  | cons seg rest =>
    obtain ⟨h1, -⟩ : seg.start = s ∧ Chained seg.«end» rest e := by simpa [Chained] using h
    simpa using h1

theorem Chained.last_end :
    ∀ (l : List Segment) (s e : ℚ), Chained s l e → l ≠ [] →
      (l.getLastD default).«end» = e := by
  intro l
  induction l with
  | nil => intro s e _ hne; exact absurd rfl hne
  | cons seg rest ih =>
    intro s e h hne
    rw [List.getLastD_cons]
    obtain ⟨-, h2⟩ : seg.start = s ∧ Chained seg.«end» rest e := by simpa [Chained] using h
    cases rest with
    | nil => simpa [Chained] using h2
    | cons b rest' =>
      have := ih seg.«end» e h2 (by simp)
      simpa [List.getLastD_cons] using this

theorem Chained.consecutive :
    ∀ (l : List Segment) (s e : ℚ), Chained s l e →
      ∀ j, j + 1 < l.length →
        (l.getD j default).«end» = (l.getD (j + 1) default).start := by
  intro l
  induction l with
  | nil => intro s e _ j hj; simp at hj
  | cons seg rest ih =>
    intro s e h j hj
    obtain ⟨-, h2⟩ : seg.start = s ∧ Chained seg.«end» rest e := by simpa [Chained] using h
    cases j with
    | zero =>
      cases rest with
      | nil => simp at hj
      | cons b rest' =>
        obtain ⟨hb, -⟩ : b.start = seg.«end» ∧ Chained b.«end» rest' e := by
          simpa [Chained] using h2
        simpa [List.getD_cons_zero, List.getD_cons_succ] using hb.symm
    | succ j' =>
      have := ih seg.«end» e h2 j' (by simpa using hj)
      simpa [List.getD_cons_succ] using this

theorem IndexedFrom.getD_index :
    ∀ (l : List Segment) (i : Int), IndexedFrom i l →
      ∀ j, j < l.length → (l.getD j default).index = i + (j : Int) := by
  intro l
  induction l with
  | nil => intro i _ j hj; simp at hj
  | cons seg rest ih =>
    intro i h j hj
    obtain ⟨h1, h2⟩ : seg.index = i ∧ IndexedFrom (i + 1) rest := by simpa [IndexedFrom] using h
    cases j with
    | zero => simpa [List.getD_cons_zero] using h1
    | succ j' =>
      have := ih (i + 1) h2 j' (by simpa using hj)
      rw [List.getD_cons_succ, this]
      push_cast
      ring

theorem tmod_two_eq_zero_iff (w : Int) : Int.tmod w 2 = 0 ↔ w % 2 = 0 := by
  rw [← Int.dvd_iff_tmod_eq_zero, ← Int.dvd_iff_emod_eq_zero]

theorem clampBitrate_bounds (height b mn mx : Int)
    (h : bitrateBounds height = some (mn, mx)) (hmm : mn ≤ mx) :
    mn ≤ clampBitrate height b ∧ clampBitrate height b ≤ mx := by
  unfold clampBitrate
  rw [h]
  dsimp only
  split_ifs <;> omega

theorem clampBitrate_mem_bounds (th : Int) (hth : th ∈ targetHeights) (b : Int) :
    ∃ mn mx, bitrateBounds th = some (mn, mx) ∧
      mn ≤ clampBitrate th b ∧ clampBitrate th b ≤ mx := by
  simp only [targetHeights, List.mem_cons, List.not_mem_nil, or_false] at hth
  rcases hth with rfl | rfl | rfl | rfl | rfl
  · refine ⟨8000000, 20000000, by norm_num [bitrateBounds], ?_, ?_⟩ <;>
      (unfold clampBitrate bitrateBounds; norm_num; split_ifs <;> omega)
  · refine ⟨2000000, 8000000, by norm_num [bitrateBounds], ?_, ?_⟩ <;>
      (unfold clampBitrate bitrateBounds; norm_num; split_ifs <;> omega)
  · refine ⟨1000000, 4000000, by norm_num [bitrateBounds], ?_, ?_⟩ <;>
      (unfold clampBitrate bitrateBounds; norm_num; split_ifs <;> omega)
  · refine ⟨500000, 2000000, by norm_num [bitrateBounds], ?_, ?_⟩ <;>
      (unfold clampBitrate bitrateBounds; norm_num; split_ifs <;> omega)
  · refine ⟨300000, 1000000, by norm_num [bitrateBounds], ?_, ?_⟩ <;>
      (unfold clampBitrate bitrateBounds; norm_num; split_ifs <;> omega)

theorem calculateWidth_even (a b c : Int) : calculateWidth a b c % 2 = 0 := by
  unfold calculateWidth
  dsimp only
  split_ifs with h
  · rcases Int.emod_two_eq_zero_or_one (ratTrunc ((c : ℚ) * ((a : ℚ) / (b : ℚ)))) with h2 | h2
    · exact absurd ((tmod_two_eq_zero_iff _).mpr h2) h
    · omega
  · exact (tmod_two_eq_zero_iff _).mp (by simpa using h)

/-- The pair of the second-to-last and last elements of a list, folded over
an initial pair: the state `(prevKeyframe, result)` after feeding `l` through
the body of `findNearestKeyframe`'s loop. -/
def lastTwo (init : ℚ × ℚ) : List ℚ → ℚ × ℚ
  | [] => init
  | x :: xs => lastTwo (init.2, x) xs

theorem findLoop_eq_lastTwo (target : ℚ) :
    ∀ (ks : List ℚ) (p r : ℚ),
      findLoop target ks p r =
        lastTwo (p, r) (ks.takeWhile (fun k => decide (k ≤ target + 1/1000))) := by
  intro ks
  induction ks with
  | nil => intro p r; simp [findLoop, lastTwo]
  | cons k rest ih =>
    intro p r
    by_cases hk : k ≤ target + 1/1000
    · rw [findLoop, if_pos hk, List.takeWhile_cons, if_pos (by simpa using hk)]
      exact ih r k
    · rw [findLoop, if_neg hk, List.takeWhile_cons, if_neg (by simpa using hk)]
      rfl

theorem lastTwo_spec :
    ∀ (l : List ℚ) (init : ℚ × ℚ),
      lastTwo init l =
        (if 2 ≤ l.length then l.getD (l.length - 2) 0
         else if l.length = 1 then init.2 else init.1,
         l.getLastD init.2) := by
  intro l
  induction l with
  | nil => intro init; simp [lastTwo]
  | cons x xs ih =>
    intro init
    rw [lastTwo, ih, List.getLastD_cons]
    cases xs with
    | nil => simp
    | cons y ys =>
      cases ys with
      | nil => simp
      | cons z zs =>
        have hlen2 : (y :: z :: zs).length = zs.length + 2 := by simp
        have hlen3 : (x :: y :: z :: zs).length = zs.length + 3 := by simp
        rw [hlen2, hlen3]
        have h1 : (2:ℕ) ≤ zs.length + 2 := by omega
        have h2 : (2:ℕ) ≤ zs.length + 3 := by omega
        rw [if_pos h1, if_pos h2]
        have h3 : zs.length + 3 - 2 = (zs.length + 2 - 2) + 1 := by omega
        rw [h3, List.getD_cons_succ]

theorem chain'_lt_head_le :
    ∀ (a : ℚ) (l : List ℚ), (a :: l).Chain' (· < ·) → ∀ x ∈ a :: l, a ≤ x := by
  intro a l
  induction l generalizing a with
  | nil => intro _ x hx; simp at hx; simp [hx]
  | cons b rest ih =>
    intro hc x hx
    rcases List.mem_cons.mp hx with rfl | hx
    · exact le_rfl
    · have hab : a < b := (List.chain'_cons.mp hc).1
      have := ih b (List.chain'_cons.mp hc).2 x hx
      exact le_trans (le_of_lt hab) this

theorem chain'_lt_head_lt_mem (a : ℚ) (l : List ℚ)
    (hc : (a :: l).Chain' (· < ·)) : ∀ x ∈ l, a < x := by
  intro x hx
  cases l with
  | nil => simp at hx
  | cons b rest =>
    have hab : a < b := (List.chain'_cons.mp hc).1
    have := chain'_lt_head_le b rest (List.chain'_cons.mp hc).2 x hx
    exact lt_of_lt_of_le hab this

theorem getLastD_of_ne_nil {l : List ℚ} (h : l ≠ []) (d d' : ℚ) :
    l.getLastD d = l.getLastD d' := by
  rw [List.getLastD_eq_getLast?, List.getLastD_eq_getLast?]
  cases hl : l.getLast? with
  | none => exact absurd (List.getLast?_eq_none_iff.mp hl) h
  | some a => rfl

theorem takeWhile_getLastD_greatest (c : ℚ) :
    ∀ (ks : List ℚ), ks.Chain' (· < ·) →
      ks.takeWhile (fun k => decide (k ≤ c)) ≠ [] →
      ((ks.takeWhile (fun k => decide (k ≤ c))).getLastD 0 ∈ ks ∧
       (ks.takeWhile (fun k => decide (k ≤ c))).getLastD 0 ≤ c ∧
       ∀ x ∈ ks, x ≤ c → x ≤ (ks.takeWhile (fun k => decide (k ≤ c))).getLastD 0) := by
  intro ks
  induction ks with
  | nil => intro _ h; simp at h
  | cons k rest ih =>
    intro hc h
    by_cases hk : k ≤ c
    · rw [List.takeWhile_cons, if_pos (by simpa using hk)] at h ⊢
      rw [List.getLastD_cons]
      by_cases ht : rest.takeWhile (fun k => decide (k ≤ c)) = []
      · rw [ht]
        simp only [List.getLastD_nil]
        refine ⟨by simp, hk, ?_⟩
        intro x hx hxc
        rcases List.mem_cons.mp hx with rfl | hx
        · exact le_rfl
        · exfalso
          cases rest with
          | nil => simp at hx
          | cons r0 rs =>
            have hr0 : ¬ r0 ≤ c := by
              intro hr0
              rw [List.takeWhile_cons, if_pos (by simpa using hr0)] at ht
              simp at ht
            have := chain'_lt_head_le r0 rs (List.chain'_cons.mp hc).2 x hx
            exact hr0 (le_trans this hxc)
      · have hrest := ih (List.Chain'.tail hc) ht
        rw [getLastD_of_ne_nil ht k 0]
        refine ⟨List.mem_cons_of_mem k hrest.1, hrest.2.1, ?_⟩
        intro x hx hxc
        rcases List.mem_cons.mp hx with rfl | hx
        · exact le_of_lt (chain'_lt_head_lt_mem x rest hc _ hrest.1)
        · exact hrest.2.2 x hx hxc
    · rw [List.takeWhile_cons, if_neg (by simpa using hk)] at h
      simp at h

theorem ne_append_of_char_mismatch (s p t : String) (k : Nat) (c₁ c₂ : Char)
    (h₁ : s.data[k]? = some c₁) (h₂ : p.data[k]? = some c₂) (hne : c₁ ≠ c₂) :
    s ≠ p ++ t := by
  intro h
  have hd : s.data = p.data ++ t.data := by rw [← String.data_append, h]
  have hk₂ : k < p.data.length := by
    by_contra hk
    rw [List.getElem?_eq_none (by omega)] at h₂
    exact Option.noConfusion h₂
  have heq : s.data[k]? = p.data[k]? := by rw [hd, List.getElem?_append_left hk₂]
  rw [h₁, h₂] at heq
  exact hne (Option.some.inj heq)

theorem append_ne_append_of_char_mismatch (p₁ p₂ a b : String) (k : Nat) (c₁ c₂ : Char)
    (h₁ : p₁.data[k]? = some c₁) (h₂ : p₂.data[k]? = some c₂) (hne : c₁ ≠ c₂) :
    p₁ ++ a ≠ p₂ ++ b := by
  intro h
  have hd : p₁.data ++ a.data = p₂.data ++ b.data := by
    rw [← String.data_append, ← String.data_append, h]
  have hk₁ : k < p₁.data.length := by
    by_contra hk
    rw [List.getElem?_eq_none (by omega)] at h₁
    exact Option.noConfusion h₁
  have hk₂ : k < p₂.data.length := by
    by_contra hk
    rw [List.getElem?_eq_none (by omega)] at h₂
    exact Option.noConfusion h₂
  have e₁ : (p₁.data ++ a.data)[k]? = p₁.data[k]? := List.getElem?_append_left hk₁
  have e₂ : (p₂.data ++ b.data)[k]? = p₂.data[k]? := List.getElem?_append_left hk₂
  rw [hd, e₂] at e₁
  rw [h₁, h₂] at e₁
  exact hne (Option.some.inj e₁).symm

theorem short_ne_append (s p t : String) (h : s.length < p.length) : s ≠ p ++ t := by
  intro he
  have := congrArg String.length he
  rw [String.length_append] at this
  omega

/-- The value `roundUpEvenSpec q` is indeed the least even integer at or above `q`. -/
theorem roundUpEvenSpec_is_least (q : ℚ) :
    2 ∣ roundUpEvenSpec q ∧ q ≤ (roundUpEvenSpec q : ℚ) ∧
    ∀ m : Int, 2 ∣ m → q ≤ (m : ℚ) → roundUpEvenSpec q ≤ m := by
  unfold roundUpEvenSpec
  split_ifs with h
  · refine ⟨by omega, le_trans (Int.le_ceil q) (by norm_num), ?_⟩
    intro m _ hm
    exact Int.ceil_le.mpr hm
  · rcases Int.emod_two_eq_zero_or_one ⌈q⌉ with h2 | h2
    · exact absurd h2 h
    · refine ⟨by omega, le_trans (Int.le_ceil q) (by push_cast; norm_num), ?_⟩
      intro m hdvd hm
      have h3 : ⌈q⌉ ≤ m := Int.ceil_le.mpr hm
      omega

/-! ## Claims -/

/-- Claim C1 (code bug): the pool's `extractSegments` is *not* element-wise equal to
`CalculateSegments(keyframes, duration, 6.0)` filtered to the job range, as the
spec requires ("it must not recompute differently").  For keyframes
`[0, 7, 8]`, duration `20`, range `[0, 1]`: after closing `[0, 7)`, no further
keyframe closes a segment, and the pool's re-implementation ends the batch at
the *last keyframe* `8`, while the segmenter ends the tail segment at the
*duration* `20`. -/
theorem extractSegments_differs_from_filtered_segmenter :
    extractSegments [0, 7, 8] 20 0 1 = [⟨0, 0, 7, 7⟩, ⟨1, 7, 8, 1⟩] ∧
    (CalculateSegments [0, 7, 8] 20 6).filter
        (fun s => decide (0 ≤ s.index ∧ s.index ≤ 1)) =
      [⟨0, 0, 7, 7⟩, ⟨1, 7, 20, 13⟩] ∧
    extractSegments [0, 7, 8] 20 0 1 ≠
      (CalculateSegments [0, 7, 8] 20 6).filter
        (fun s => decide (0 ≤ s.index ∧ s.index ≤ 1)) := by
  have s1 : scanClose [0, 7, 8] 0 6 1 = some 1 := by rw [scanClose]; norm_num
  have s2 : scanClose [0, 7, 8] 7 6 2 = none := by
    rw [scanClose]; norm_num; rw [scanClose]; norm_num
  have he : extractSegments [0, 7, 8] 20 0 1 = [⟨0, 0, 7, 7⟩, ⟨1, 7, 8, 1⟩] := by
    rw [extractSegments, extractLoop]
    norm_num [innerScan, fixupEnd, s1]
    rw [extractLoop]
    norm_num [innerScan, fixupEnd, s2]
  have hc : (CalculateSegments [0, 7, 8] 20 6).filter
      (fun s => decide (0 ≤ s.index ∧ s.index ≤ 1)) = [⟨0, 0, 7, 7⟩, ⟨1, 7, 20, 13⟩] := by
    norm_num [CalculateSegments, calcSegmentsLoop, List.filter]
  refine ⟨he, hc, ?_⟩
  rw [he, hc]
  simp

/-- Claim C2:: `CalculateSegments` implements the spec's segmentation rule (first
subsequent keyframe at or beyond `target_duration` closes a segment and becomes
the cursor; a final tail segment `[segment_start, duration)` is emitted when
`segment_start < duration`), and on keyframes `[0, 1, 2.5, 4.9, 7.1]` with
duration `8` and target duration `2.0` it returns exactly the four segments of
scenario S1. -/
theorem calculateSegments_follows_rule (keyframes : List ℚ)
    (duration targetDuration : ℚ) (hne : keyframes ≠ [])
    (hmono : keyframes.Chain' (· ≤ ·)) :
    CalculateSegments keyframes duration targetDuration =
      walkSegments targetDuration duration (keyframes.headD 0) keyframes.tail 0 ∧
    CalculateSegments [0, 1, 5/2, 49/10, 71/10] 8 2 =
      [⟨0, 0, 5/2, 5/2⟩, ⟨1, 5/2, 49/10, 12/5⟩, ⟨2, 49/10, 71/10, 11/5⟩,
       ⟨3, 71/10, 8, 9/10⟩] := by
  constructor
  · cases keyframes with
    | nil => exact absurd rfl hne
    | cons k0 rest => simpa using calculateSegments_eq_walk k0 rest duration targetDuration
  · norm_num [CalculateSegments, calcSegmentsLoop]

theorem calculateSegments_follows_rule_witness :
    (([0, 1, 5/2, 49/10, 71/10] : List ℚ) ≠ [] ∧
      ([0, 1, 5/2, 49/10, 71/10] : List ℚ).Chain' (· ≤ ·)) ∧
    (CalculateSegments [0, 1, 5/2, 49/10, 71/10] 8 2 =
        walkSegments 2 8 0 [1, 5/2, 49/10, 71/10] 0 ∧
      CalculateSegments [0, 1, 5/2, 49/10, 71/10] 8 2 =
        [⟨0, 0, 5/2, 5/2⟩, ⟨1, 5/2, 49/10, 12/5⟩, ⟨2, 49/10, 71/10, 11/5⟩,
         ⟨3, 71/10, 8, 9/10⟩]) :=
  ⟨⟨by simp, by norm_num [List.chain'_cons]⟩,
    calculateSegments_follows_rule [0, 1, 5/2, 49/10, 71/10] 8 2 (by simp)
      (by norm_num [List.chain'_cons])⟩

/-- Claim C3 counterexample: for the non-empty monotone keyframe list `[3]` and
duration `2` (duration not exceeding the last keyframe), `CalculateSegments`
returns the *empty* list, contradicting the claim that the result is non-empty
with its last segment ending at `duration` for *every* duration. -/
theorem calculateSegments_empty_for_small_duration :
    CalculateSegments [3] 2 6 = [] ∧ ([3] : List ℚ) ≠ [] ∧
      ([3] : List ℚ).Chain' (· ≤ ·) := by
  refine ⟨?_, by simp, by simp⟩
  norm_num [CalculateSegments, calcSegmentsLoop]

/-- Claim C3 (amended): for every non-empty monotonically non-decreasing keyframe
list whose last keyframe lies strictly before `duration`, `CalculateSegments`
returns a non-empty list whose first segment starts at `keyframes[0]`, whose
last segment ends at `duration`, with contiguous consecutive segments and
indices consecutive from 0. -/
theorem calculateSegments_invariants (keyframes : List ℚ)
    (duration targetDuration : ℚ) (hne : keyframes ≠ [])
    (hmono : keyframes.Chain' (· ≤ ·))
    (hlast : keyframes.getLastD 0 < duration) :
    CalculateSegments keyframes duration targetDuration ≠ [] ∧
    ((CalculateSegments keyframes duration targetDuration).headD default).start =
      keyframes.headD 0 ∧
    ((CalculateSegments keyframes duration targetDuration).getLastD default).«end» =
      duration ∧
    (∀ j, j + 1 < (CalculateSegments keyframes duration targetDuration).length →
      ((CalculateSegments keyframes duration targetDuration).getD j default).«end» =
        ((CalculateSegments keyframes duration targetDuration).getD (j + 1) default).start) ∧
    (∀ j, j < (CalculateSegments keyframes duration targetDuration).length →
      ((CalculateSegments keyframes duration targetDuration).getD j default).index =
        (j : Int)) := by
  cases keyframes with
  | nil => exact absurd rfl hne
  | cons k0 rest =>
    have hbound : ∀ x ∈ k0 :: rest, x < duration := by
      intro x hx
      exact lt_of_le_of_lt (chain'_le_mem_getLastD (k0 :: rest) hmono 0 x hx) hlast
    obtain ⟨h1, h2, h3⟩ := walkSegments_invariants targetDuration duration rest k0 0 hbound
    rw [calculateSegments_eq_walk]
    refine ⟨h1, ?_, ?_, ?_, ?_⟩
    · simpa using Chained.head_start h2 h1
    · exact Chained.last_end _ k0 duration h2 h1
    · exact Chained.consecutive _ k0 duration h2
    · intro j hj
      simpa using IndexedFrom.getD_index _ 0 h3 j hj

theorem calculateSegments_invariants_witness :
    (([0, 7] : List ℚ) ≠ [] ∧ ([0, 7] : List ℚ).Chain' (· ≤ ·) ∧
      ([0, 7] : List ℚ).getLastD 0 < 10) ∧
    (CalculateSegments [0, 7] 10 6 ≠ [] ∧
      ((CalculateSegments [0, 7] 10 6).headD default).start = ([0, 7] : List ℚ).headD 0 ∧
      ((CalculateSegments [0, 7] 10 6).getLastD default).«end» = 10 ∧
      (∀ j, j + 1 < (CalculateSegments [0, 7] 10 6).length →
        ((CalculateSegments [0, 7] 10 6).getD j default).«end» =
          ((CalculateSegments [0, 7] 10 6).getD (j + 1) default).start) ∧
      (∀ j, j < (CalculateSegments [0, 7] 10 6).length →
        ((CalculateSegments [0, 7] 10 6).getD j default).index = (j : Int))) :=
  ⟨⟨by simp, by norm_num [List.chain'_cons], by norm_num⟩,
    calculateSegments_invariants [0, 7] 10 6 (by simp)
      (by norm_num [List.chain'_cons]) (by norm_num)⟩

/-- Claim C6:: every video rendition generated from a source with positive width
and height has its bitrate inside the height-specific bounds table, an even
width, a height at most the source height, and `direct_stream` exactly when the
source codec is `h264` and the rendition height equals the source height. -/
theorem generateVideo_bounds_and_gate (video : VideoStream)
    (hw : 0 < video.width) (hh : 0 < video.height) :
    ∀ r ∈ GenerateVideo video,
      (∃ mn mx, bitrateBounds r.height = some (mn, mx) ∧
        mn ≤ r.bitrate ∧ r.bitrate ≤ mx) ∧
      r.width % 2 = 0 ∧
      r.height ≤ video.height ∧
      (r.method = PlaybackMethod.directStream ↔
        video.codec = "h264" ∧ r.height = video.height) := by
  intro r hr
  simp only [GenerateVideo] at hr
  rw [List.mem_map] at hr
  obtain ⟨th, hth, rfl⟩ := hr
  rw [List.mem_filter] at hth
  obtain ⟨hmem, hle⟩ := hth
  have hle' : th ≤ video.height := by simpa using hle
  refine ⟨?_, ?_, ?_, ?_⟩
  · exact clampBitrate_mem_bounds th hmem _
  · exact calculateWidth_even video.width video.height th
  · exact hle'
  · simp only [directStreamCodecs]
    split_ifs with hcond
    · simp only [beq_iff_eq] at hcond
      simp [hcond.1, hcond.2]
    · simp only [beq_iff_eq, not_and] at hcond
      constructor
      · intro h
        exact absurd h (by simp)
      · intro ⟨h1, h2⟩
        exact absurd h2 (by simpa [h1] using hcond)

theorem generateVideo_bounds_and_gate_witness :
    (0 < (1920 : Int) ∧ 0 < (1080 : Int)) ∧
    (⟨"1080p", 1920, 1080, 8000000, .directStream⟩ : VideoRendition) ∈
      GenerateVideo ⟨0, "h264", 1920, 1080, 10000000, 0⟩ ∧
    ((∃ mn mx, bitrateBounds 1080 = some (mn, mx) ∧
        mn ≤ (8000000 : Int) ∧ (8000000 : Int) ≤ mx) ∧
      (1920 : Int) % 2 = 0 ∧ (1080 : Int) ≤ 1080 ∧
      (PlaybackMethod.directStream = PlaybackMethod.directStream ↔
        ("h264" : String) = "h264" ∧ (1080 : Int) = 1080)) := by
  have hval : GenerateVideo ⟨0, "h264", 1920, 1080, 10000000, 0⟩ =
      [⟨"1080p", 1920, 1080, 8000000, .directStream⟩,
       ⟨"720p", 1280, 720, 4000000, .transcode⟩,
       ⟨"480p", 854, 480, 1976851, .transcode⟩,
       ⟨"360p", 640, 360, 1000000, .transcode⟩] := by
    norm_num [GenerateVideo, targetHeights, calculateWidth, ratTrunc, clampBitrate,
      bitrateBounds, estimateBitrate, directStreamCodecs, Int.tmod,
      show toString (1080 : Int) ++ "p" = "1080p" from rfl,
      show toString (720 : Int) ++ "p" = "720p" from rfl,
      show toString (480 : Int) ++ "p" = "480p" from rfl,
      show toString (360 : Int) ++ "p" = "360p" from rfl]
  have hmem : (⟨"1080p", 1920, 1080, 8000000, .directStream⟩ : VideoRendition) ∈
      GenerateVideo ⟨0, "h264", 1920, 1080, 10000000, 0⟩ := by
    rw [hval]; simp
  exact ⟨⟨by norm_num, by norm_num⟩, hmem,
    generateVideo_bounds_and_gate ⟨0, "h264", 1920, 1080, 10000000, 0⟩
      (by norm_num) (by norm_num) _ hmem⟩

/-- Claim C7 counterexample: for the source `854×480` and target height `360`,
the exact scaled width is `854·360/480 = 640.5`, whose smallest even upper
integer is `642`; the code truncates *before* rounding up to even and produces
`640`. -/
theorem generateVideo_width_truncates_counterexample :
    ((GenerateVideo ⟨0, "h264", 854, 480, 1000000, 0⟩).getD 1 default).height = 360 ∧
    ((GenerateVideo ⟨0, "h264", 854, 480, 1000000, 0⟩).getD 1 default).width = 640 ∧
    roundUpEvenSpec ((854 : ℚ) * 360 / 480) = 642 ∧
    ((GenerateVideo ⟨0, "h264", 854, 480, 1000000, 0⟩).getD 1 default).width ≠
      roundUpEvenSpec ((854 : ℚ) * 360 / 480) := by
  have hval : GenerateVideo ⟨0, "h264", 854, 480, 1000000, 0⟩ =
      [⟨"480p", 854, 480, 1000000, .directStream⟩,
       ⟨"360p", 640, 360, 562060, .transcode⟩] := by
    norm_num [GenerateVideo, targetHeights, calculateWidth, ratTrunc, clampBitrate,
      bitrateBounds, estimateBitrate, directStreamCodecs, Int.tmod,
      show toString (480 : Int) ++ "p" = "480p" from rfl,
      show toString (360 : Int) ++ "p" = "360p" from rfl]
  have hceil : (⌈(854 : ℚ) * 360 / 480⌉ : Int) = 641 := by
    rw [Int.ceil_eq_iff] <;> norm_num
  rw [hval]
  refine ⟨by norm_num, by norm_num, ?_, ?_⟩
  · rw [roundUpEvenSpec, hceil]; norm_num
  · rw [roundUpEvenSpec, hceil]; norm_num

/-- Claim C7 (amended): for every source stream, the width of each generated
rendition is the *truncated* scaled width `int(src.width · h / src.height)`
rounded up to the next even integer — i.e. `round_up_even` applied to the
truncation of the exact scaled width, not to the exact scaled width itself. -/
theorem generateVideo_width_rounds_truncated (video : VideoStream) :
    ∀ r ∈ GenerateVideo video,
      r.width = roundUpEvenSpec
        ((ratTrunc ((video.width : ℚ) * (r.height : ℚ) / (video.height : ℚ)) : ℚ)) := by
  intro r hr
  simp only [GenerateVideo] at hr
  rw [List.mem_map] at hr
  obtain ⟨th, _, rfl⟩ := hr
  show calculateWidth video.width video.height th = _
  have harg : (video.width : ℚ) * (th : ℚ) / (video.height : ℚ) =
      (th : ℚ) * ((video.width : ℚ) / (video.height : ℚ)) := by ring
  rw [harg]
  unfold calculateWidth roundUpEvenSpec
  dsimp only
  rw [Int.ceil_intCast]
  rcases Int.emod_two_eq_zero_or_one
      (ratTrunc ((th : ℚ) * ((video.width : ℚ) / (video.height : ℚ)))) with h2 | h2
  · rw [if_neg (by simpa using (tmod_two_eq_zero_iff _).mpr h2), if_pos h2]
  · rw [if_pos (by intro hc; have := (tmod_two_eq_zero_iff _).mp hc; omega),
      if_neg (by omega)]

theorem generateVideo_width_rounds_truncated_witness :
    (⟨"360p", 640, 360, 562060, .transcode⟩ : VideoRendition) ∈
      GenerateVideo ⟨0, "h264", 854, 480, 1000000, 0⟩ ∧
    (640 : Int) = roundUpEvenSpec ((ratTrunc ((854 : ℚ) * (360 : ℚ) / (480 : ℚ)) : ℚ)) := by
  have hval : GenerateVideo ⟨0, "h264", 854, 480, 1000000, 0⟩ =
      [⟨"480p", 854, 480, 1000000, .directStream⟩,
       ⟨"360p", 640, 360, 562060, .transcode⟩] := by
    norm_num [GenerateVideo, targetHeights, calculateWidth, ratTrunc, clampBitrate,
      bitrateBounds, estimateBitrate, directStreamCodecs, Int.tmod,
      show toString (480 : Int) ++ "p" = "480p" from rfl,
      show toString (360 : Int) ++ "p" = "360p" from rfl]
  have hmem : (⟨"360p", 640, 360, 562060, .transcode⟩ : VideoRendition) ∈
      GenerateVideo ⟨0, "h264", 854, 480, 1000000, 0⟩ := by
    rw [hval]; simp
  exact ⟨hmem,
    generateVideo_width_rounds_truncated ⟨0, "h264", 854, 480, 1000000, 0⟩ _ hmem⟩

/-- Claim C4 (code bug): on a pre-execution failure — here a failing metadata
fetch — `processJob` publishes an error status notification for every index in
`[start_index, end_index]`, but then returns *without acknowledging the job*:
the event list contains no `ack`, while the spec requires the job to be
acknowledged "regardless of outcome" after the error fan-out. -/
theorem processJob_missing_metadata_not_acked :
    processJob StreamType.video (.error ("metadata missing")) (.ok ("/tmp/t")) none
        ⟨"job-1", "src", "1080p", StreamType.video, 0, 2⟩ =
      [.notify ⟨"src", 0, 0, 0, 0, "1080p", true⟩ ⟨.error, "metadata missing"⟩,
       .notify ⟨"src", 1, 0, 0, 0, "1080p", true⟩ ⟨.error, "metadata missing"⟩,
       .notify ⟨"src", 2, 0, 0, 0, "1080p", true⟩ ⟨.error, "metadata missing"⟩] ∧
    (processJob StreamType.video (.error ("metadata missing")) (.ok ("/tmp/t")) none
        ⟨"job-1", "src", "1080p", StreamType.video, 0, 2⟩).filter
      (fun e =>
        match e with
        | .ack _ => true
        | _ => false) = [] := by
  constructor
  · rfl
  · rfl

/-- Claim C5:: `NotifyingStorage.WriteSegment` first delegates to the underlying
write; on a failing write it publishes an error status carrying the error text
and returns the wrapped error; on a successful write it publishes a ready
status after the write and returns an error exactly when that publish fails
(wrapped as a notify error). -/
theorem notifyingWriteSegment_contract (writeErr notifyErrResult notifyReadyResult : Option String)
    (info : SegmentData) (data : List (Fin 256)) :
    (notifyingWriteSegment writeErr notifyErrResult notifyReadyResult info data).1 =
      [.writeSegment info data,
       .notifySegment info
         (match writeErr with
          | some e => ⟨.error, e⟩
          | none => ⟨.ready, ""⟩)] ∧
    ((notifyingWriteSegment writeErr notifyErrResult notifyReadyResult info data).2 = none ↔
      writeErr = none ∧ notifyReadyResult = none) ∧
    (∀ e, writeErr = some e →
      (notifyingWriteSegment writeErr notifyErrResult notifyReadyResult info data).2 =
        some ("storage write: " ++ e)) ∧
    (∀ e, writeErr = none → notifyReadyResult = some e →
      (notifyingWriteSegment writeErr notifyErrResult notifyReadyResult info data).2 =
        some ("notify segment: " ++ e)) := by
  cases writeErr <;> cases notifyReadyResult <;>
    simp [notifyingWriteSegment]

theorem notifyingWriteSegment_contract_witness :
    ((notifyingWriteSegment (some ("disk full")) none none
        ⟨"src", 3, 0, 0, 0, "1080p", true⟩ [7]).1 =
      [.writeSegment ⟨"src", 3, 0, 0, 0, "1080p", true⟩ [7],
       .notifySegment ⟨"src", 3, 0, 0, 0, "1080p", true⟩ ⟨.error, "disk full"⟩]) ∧
    (notifyingWriteSegment (some ("disk full")) none none
        ⟨"src", 3, 0, 0, 0, "1080p", true⟩ [7]).2 = some ("storage write: disk full") := by
  have h := notifyingWriteSegment_contract (some ("disk full")) none none
    ⟨"src", 3, 0, 0, 0, "1080p", true⟩ [7]
  exact ⟨h.1, h.2.2.1 ("disk full") rfl⟩

theorem runLines_writeIndices (readResult : List Char → Option (List (Fin 256)))
    (writeResult : SegmentData → Option String) (u r : String) (v : Bool)
    (hread : ∀ f, (readResult f).isSome)
    (hwrite : ∀ i, writeResult i = none) :
    ∀ (lines : List (List Char)) (skip : Bool),
      writeIndices (runLines readResult writeResult u r v lines skip) =
        (if skip then ((lines.map goTrimSpace).filter (fun f => decide (f ≠ []))).tail
         else (lines.map goTrimSpace).filter (fun f => decide (f ≠ []))).filterMap
          parseSegmentIndex := by
  intro lines
  induction lines with
  | nil => intro skip; cases skip <;> simp [runLines, writeIndices]
  | cons line rest ih =>
    intro skip
    by_cases hf : goTrimSpace line = []
    · rw [runLines]
      rw [if_pos hf, ih skip]
      cases skip <;> simp [List.filter_cons, hf]
    · cases skip with
      | true =>
        rw [runLines, if_neg hf, if_pos rfl]
        have : writeIndices (WorkerEvent.removeFile (goTrimSpace line) ::
            runLines readResult writeResult u r v rest false) =
            writeIndices (runLines readResult writeResult u r v rest false) := by
          simp [writeIndices]
        rw [this, ih false]
        simp [List.filter_cons, hf]
      | false =>
        rw [runLines, if_neg hf]
        simp only [Bool.false_eq_true, if_false]
        cases hp : parseSegmentIndex (goTrimSpace line) with
        | none =>
          rw [ih false]
          simp [List.filter_cons, hf, List.filterMap_cons, hp]
        | some idx =>
          cases hr : readResult (goTrimSpace line) with
          | none => exact absurd (hread (goTrimSpace line)) (by simp [hr])
          | some data =>
            dsimp only
            rw [hwrite ⟨u, idx, 0, 0, 0, r, v⟩]
            have : writeIndices (WorkerEvent.readFile (goTrimSpace line) ::
                WorkerEvent.writeSegment ⟨u, idx, 0, 0, 0, r, v⟩ data ::
                WorkerEvent.removeFile (goTrimSpace line) ::
                runLines readResult writeResult u r v rest false) =
                idx :: writeIndices (runLines readResult writeResult u r v rest false) := by
              simp [writeIndices]
            rw [this, ih false]
            simp [List.filter_cons, hf, List.filterMap_cons, hp]

theorem runLines_skip_removes_first (readResult : List Char → Option (List (Fin 256)))
    (writeResult : SegmentData → Option String) (u r : String) (v : Bool) :
    ∀ (lines : List (List Char)),
      ((lines.map goTrimSpace).filter (fun f => decide (f ≠ []))) ≠ [] →
      WorkerEvent.removeFile
          (((lines.map goTrimSpace).filter (fun f => decide (f ≠ []))).headD []) ∈
        runLines readResult writeResult u r v lines true := by
  intro lines
  induction lines with
  | nil => intro h; simp at h
  | cons line rest ih =>
    intro h
    by_cases hf : goTrimSpace line = []
    · rw [runLines, if_pos hf]
      have hfil : ((line :: rest).map goTrimSpace).filter (fun f => decide (f ≠ [])) =
          (rest.map goTrimSpace).filter (fun f => decide (f ≠ [])) := by
        simp [List.filter_cons, hf]
      rw [hfil] at h ⊢
      exact ih h
    · rw [runLines, if_neg hf, if_pos rfl]
      have hfil : ((line :: rest).map goTrimSpace).filter (fun f => decide (f ≠ [])) =
          goTrimSpace line :: (rest.map goTrimSpace).filter (fun f => decide (f ≠ [])) := by
        simp [List.filter_cons, hf]
      rw [hfil]
      simp

/-- Claim C9:: with the `skip_first` flag set and all file reads and segment
writes succeeding, a worker uploads exactly the parseable indices of the
non-empty trimmed lines *after the first one* (unparseable lines are skipped
without any upload), and the first non-empty line is removed without being
uploaded.  In particular the lines `["segment-00001.ts", "segment-00002.ts"]`
produce exactly one `WriteSegment` call, with index 2. -/
theorem worker_skipFirst_upload_indices (readResult : List Char → Option (List (Fin 256)))
    (writeResult : SegmentData → Option String) (u r : String) (v : Bool)
    (hread : ∀ f, (readResult f).isSome)
    (hwrite : ∀ i, writeResult i = none) :
    (∀ lines, writeIndices (runLines readResult writeResult u r v lines true) =
      (((lines.map goTrimSpace).filter (fun f => decide (f ≠ []))).tail).filterMap
        parseSegmentIndex) ∧
    (∀ lines, ((lines.map goTrimSpace).filter (fun f => decide (f ≠ []))) ≠ [] →
      WorkerEvent.removeFile
          (((lines.map goTrimSpace).filter (fun f => decide (f ≠ []))).headD []) ∈
        runLines readResult writeResult u r v lines true) ∧
    writeIndices (runLines readResult writeResult u r v
      [("segment-00001.ts").data, ("segment-00002.ts").data] true) = [2] := by
  refine ⟨fun lines => by rw [runLines_writeIndices readResult writeResult u r v hread hwrite]; rfl,
    runLines_skip_removes_first readResult writeResult u r v, ?_⟩
  rw [runLines_writeIndices readResult writeResult u r v hread hwrite]
  decide

theorem worker_skipFirst_upload_indices_witness :
    (∀ f : List Char, ((fun _ => some []) f : Option (List (Fin 256))).isSome) ∧
    (∀ i : SegmentData, ((fun _ => none) i : Option String) = none) ∧
    writeIndices (runLines (fun _ => some []) (fun _ => none) ("src") ("1080p") true
      [("segment-00001.ts").data, ("segment-00002.ts").data] true) = [2] :=
  ⟨fun _ => rfl, fun _ => rfl,
    (worker_skipFirst_upload_indices (fun _ => some []) (fun _ => none) ("src") ("1080p") true
      (fun _ => rfl) (fun _ => rfl)).2.2⟩

/-- Claim C8 counterexample: for keyframes `[0, 10, 15]` and target `10.005`,
the greatest keyframe at most `target + 1e-3` is `10`, it is within `1e-2` of
the target and the strictly earlier keyframe `0` exists — yet the code returns
`10`, not the preceding keyframe, because its tie-break additionally requires
the preceding keyframe to be strictly positive (`prevKeyframe > 0`). -/
theorem findNearestKeyframe_counterexample :
    findNearestKeyframe [0, 10, 15] (2001/200) = 10 ∧
    (10 : ℚ) ≤ 2001/200 + 1/1000 ∧
    ¬ (15 : ℚ) ≤ 2001/200 + 1/1000 ∧
    (2001/200 : ℚ) - 10 < 1/100 ∧
    (0 : ℚ) < 10 ∧
    findNearestKeyframe [0, 10, 15] (2001/200) ≠ 0 := by
  have h : findNearestKeyframe [0, 10, 15] (2001/200) = 10 := by
    norm_num [findNearestKeyframe, findLoop]
  refine ⟨h, by norm_num, by norm_num, by norm_num, by norm_num, by rw [h]; norm_num⟩

/-- Claim C8 (amended): for a strictly increasing keyframe list with at least one
keyframe at most `target + 1e-3`, `findNearestKeyframe` returns the greatest
keyframe `k` with `k ≤ target + 1e-3`, except that when `target - k < 1e-2`
and the immediately preceding keyframe exists *and is strictly positive*, that
preceding keyframe is returned instead. -/
theorem findNearestKeyframe_characterized (keyframes : List ℚ) (target : ℚ)
    (hmono : keyframes.Chain' (· < ·))
    (hacc : keyframes.takeWhile (fun k => decide (k ≤ target + 1/1000)) ≠ []) :
    ((keyframes.takeWhile (fun k => decide (k ≤ target + 1/1000))).getLastD 0 ∈ keyframes ∧
     (keyframes.takeWhile (fun k => decide (k ≤ target + 1/1000))).getLastD 0 ≤
       target + 1/1000 ∧
     (∀ x ∈ keyframes, x ≤ target + 1/1000 →
        x ≤ (keyframes.takeWhile (fun k => decide (k ≤ target + 1/1000))).getLastD 0)) ∧
    findNearestKeyframe keyframes target =
      (if 2 ≤ (keyframes.takeWhile (fun k => decide (k ≤ target + 1/1000))).length ∧
          0 < (keyframes.takeWhile (fun k => decide (k ≤ target + 1/1000))).getD
            ((keyframes.takeWhile (fun k => decide (k ≤ target + 1/1000))).length - 2) 0 ∧
          target -
            (keyframes.takeWhile (fun k => decide (k ≤ target + 1/1000))).getLastD 0 < 1/100
       then
        (keyframes.takeWhile (fun k => decide (k ≤ target + 1/1000))).getD
          ((keyframes.takeWhile (fun k => decide (k ≤ target + 1/1000))).length - 2) 0
       else (keyframes.takeWhile (fun k => decide (k ≤ target + 1/1000))).getLastD 0) := by
  refine ⟨takeWhile_getLastD_greatest (target + 1/1000) keyframes hmono hacc, ?_⟩
  cases keyframes with
  | nil => simp at hacc
  | cons k0 rest =>
    rw [findNearestKeyframe]
    rw [findLoop_eq_lastTwo, lastTwo_spec]
    set t := (k0 :: rest).takeWhile (fun k => decide (k ≤ target + 1/1000)) with ht
    dsimp only
    rcases Nat.lt_or_ge t.length 2 with hlen | hlen
    · have h1 : t.length = 1 := by
        rcases Nat.eq_zero_or_pos t.length with h0 | h0
        · exact absurd (List.length_eq_zero.mp h0) hacc
        · omega
      have h2 : ¬ (2 ≤ t.length) := by omega
      simp only [if_neg h2, if_pos h1]
      rw [if_neg (by simp), if_neg (by push_neg; intro h; exact absurd h h2)]
    · simp only [if_pos hlen]
      by_cases hcond : 0 < t.getD (t.length - 2) 0 ∧ target - t.getLastD 0 < 1/100
      · rw [if_pos (show t.getD (t.length - 2) 0 > 0 ∧ target - t.getLastD 0 < 1/100 from
          ⟨hcond.1, hcond.2⟩), if_pos ⟨hlen, hcond.1, hcond.2⟩]
      · rw [if_neg (show ¬ (t.getD (t.length - 2) 0 > 0 ∧ target - t.getLastD 0 < 1/100) from
          hcond), if_neg (by tauto)]

theorem findNearestKeyframe_characterized_witness :
    (([5, 10, 15] : List ℚ).Chain' (· < ·) ∧
      ([5, 10, 15] : List ℚ).takeWhile (fun k => decide (k ≤ 2001/200 + 1/1000)) ≠ []) ∧
    findNearestKeyframe [5, 10, 15] (2001/200) = 5 := by
  have hmono : ([5, 10, 15] : List ℚ).Chain' (· < ·) := by norm_num [List.chain'_cons]
  have htw : ([5, 10, 15] : List ℚ).takeWhile (fun k => decide (k ≤ 2001/200 + 1/1000)) =
      [5, 10] := by
    rw [List.takeWhile_cons, if_pos (by norm_num), List.takeWhile_cons, if_pos (by norm_num),
      List.takeWhile_cons, if_neg (by norm_num)]
  have hacc : ([5, 10, 15] : List ℚ).takeWhile (fun k => decide (k ≤ 2001/200 + 1/1000)) ≠ [] := by
    rw [htw]; simp
  have := (findNearestKeyframe_characterized [5, 10, 15] (2001/200) hmono hacc).2
  rw [htw] at this
  refine ⟨⟨hmono, hacc⟩, ?_⟩
  rw [this]
  norm_num

/-- Claim C10:: provided the path generator's variant-playlist URIs do not start
with `#`, every `#EXT-X-STREAM-INF` line of the master playlist ends with
`AUDIO="audio"` — for *every* input, including an empty audio rendition list —
and when the audio rendition list is empty the playlist contains no
`#EXT-X-MEDIA` line, so every video variant references an undeclared audio
group. -/
theorem master_streamInf_audio_group (pg : PathGenerator) (sourceURL : String)
    (videos : List VideoRendition) (audios : List AudioRendition)
    (hpg : ∀ s r t, ¬ ∃ rest, pg.variantPlaylist s r t = "#" ++ rest) :
    (∀ l ∈ masterLines pg sourceURL videos audios,
      (∃ rest, l = "#EXT-X-STREAM-INF" ++ rest) → ∃ p, l = p ++ "AUDIO=\"audio\"") ∧
    (audios = [] → ∀ l ∈ masterLines pg sourceURL videos audios,
      ¬ ∃ rest, l = "#EXT-X-MEDIA" ++ rest) := by
  have hstream : ∀ v : VideoRendition, ∃ p, streamInfLine v = p ++ "AUDIO=\"audio\"" := by
    intro v
    refine ⟨"#EXT-X-STREAM-INF:BANDWIDTH=" ++ toString v.bitrate ++ ",RESOLUTION="
      ++ toString v.width ++ "x" ++ toString v.height ++ ",CODECS=\""
      ++ videoCodecString v ++ "," ++ audioCodecString ++ "\",", ?_⟩
    unfold streamInfLine audioGroupID
    rw [show ("\",AUDIO=\"" : String) = "\"," ++ "AUDIO=\"" from rfl]
    simp only [String.append_assoc]
    rw [show ("AUDIO=\"" ++ ("audio" ++ "\"") : String) = "AUDIO=\"audio\"" from rfl]
  have hmem : ∀ l ∈ masterLines pg sourceURL videos audios,
      l = "#EXTM3U" ∨ l = "#EXT-X-VERSION:4" ∨ l = "" ∨
      (∃ a ∈ audios, l = mediaLine pg sourceURL a) ∨
      (∃ v ∈ videos, l = streamInfLine v) ∨
      (∃ v ∈ videos, l = pg.variantPlaylist sourceURL v.name StreamType.video) := by
    intro l hl
    simp only [masterLines, List.append_assoc, List.mem_append, List.mem_cons,
      List.not_mem_nil, or_false, List.mem_map, List.mem_flatMap] at hl
    rcases hl with (rfl | rfl | rfl) | ⟨a, ha, rfl⟩ | hl | ⟨v, hv, hl⟩
    · exact Or.inl rfl
    · exact Or.inr (Or.inl rfl)
    · exact Or.inr (Or.inr (Or.inl rfl))
    · exact Or.inr (Or.inr (Or.inr (Or.inl ⟨a, ha, rfl⟩)))
    · refine Or.inr (Or.inr (Or.inl ?_))
      split at hl
      · simpa using hl
      · simp at hl
    · rcases (by simpa using hl : l = streamInfLine v ∨
          l = pg.variantPlaylist sourceURL v.name StreamType.video) with rfl | rfl
      · exact Or.inr (Or.inr (Or.inr (Or.inr (Or.inl ⟨v, hv, rfl⟩))))
      · exact Or.inr (Or.inr (Or.inr (Or.inr (Or.inr ⟨v, hv, rfl⟩))))
  constructor
  · intro l hl hpre
    obtain ⟨rest, rfl⟩ := hpre
    rcases hmem _ hl with h | h | h | ⟨a, -, h⟩ | ⟨v, -, h⟩ | ⟨v, -, h⟩
    · exact absurd h.symm (short_ne_append ("#EXTM3U") ("#EXT-X-STREAM-INF") rest (by decide))
    · exact absurd h.symm
        (short_ne_append ("#EXT-X-VERSION:4") ("#EXT-X-STREAM-INF") rest (by decide))
    · exact absurd h.symm (short_ne_append ("") ("#EXT-X-STREAM-INF") rest (by decide))
    · exfalso
      unfold mediaLine at h
      simp only [String.append_assoc] at h
      exact append_ne_append_of_char_mismatch
        ("#EXT-X-MEDIA:TYPE=AUDIO,GROUP-ID=\"") ("#EXT-X-STREAM-INF") _ rest 7 'M' 'S'
        (by decide) (by decide) (by decide) h.symm
    · rw [h]
      exact hstream v
    · exfalso
      refine hpg sourceURL v.name StreamType.video ⟨"EXT-X-STREAM-INF" ++ rest, ?_⟩
      rw [← h, ← String.append_assoc]
      rfl
  · rintro rfl l hl ⟨rest, rfl⟩
    rcases hmem _ hl with h | h | h | ⟨a, ha, -⟩ | ⟨v, -, h⟩ | ⟨v, -, h⟩
    · exact absurd h.symm (short_ne_append ("#EXTM3U") ("#EXT-X-MEDIA") rest (by decide))
    · exact absurd h.symm (ne_append_of_char_mismatch ("#EXT-X-VERSION:4") ("#EXT-X-MEDIA")
        rest 7 'V' 'M' (by decide) (by decide) (by decide))
    · exact absurd h.symm (short_ne_append ("") ("#EXT-X-MEDIA") rest (by decide))
    · simp at ha
    · unfold streamInfLine at h
      simp only [String.append_assoc] at h
      exact append_ne_append_of_char_mismatch
        ("#EXT-X-STREAM-INF:BANDWIDTH=") ("#EXT-X-MEDIA") _ rest 7 'S' 'M'
        (by decide) (by decide) (by decide) h.symm
    · refine hpg sourceURL v.name StreamType.video ⟨"EXT-X-MEDIA" ++ rest, ?_⟩
      rw [← h, ← String.append_assoc]
      rfl

theorem master_streamInf_audio_group_witness :
    (∀ s r t, ¬ ∃ rest,
      (PathGenerator.mk (fun _ => "m") (fun _ _ _ => "variant.m3u8")
          (fun _ _ _ _ => "seg")).variantPlaylist s r t = "#" ++ rest) ∧
    ((∀ l ∈ masterLines
        (PathGenerator.mk (fun _ => "m") (fun _ _ _ => "variant.m3u8") (fun _ _ _ _ => "seg"))
        "src" [⟨"1080p", 1920, 1080, 5000000, .transcode⟩] [],
      (∃ rest, l = "#EXT-X-STREAM-INF" ++ rest) → ∃ p, l = p ++ "AUDIO=\"audio\"") ∧
    (([] : List AudioRendition) = [] → ∀ l ∈ masterLines
        (PathGenerator.mk (fun _ => "m") (fun _ _ _ => "variant.m3u8") (fun _ _ _ _ => "seg"))
        "src" [⟨"1080p", 1920, 1080, 5000000, .transcode⟩] [],
      ¬ ∃ rest, l = "#EXT-X-MEDIA" ++ rest)) := by
  have hpg : ∀ s r t, ¬ ∃ rest,
      (PathGenerator.mk (fun _ => "m") (fun _ _ _ => "variant.m3u8")
          (fun _ _ _ _ => "seg")).variantPlaylist s r t = "#" ++ rest := by
    rintro s r t ⟨rest, hr⟩
    exact absurd hr (ne_append_of_char_mismatch ("variant.m3u8") ("#") rest 0 'v' '#'
      (by decide) (by decide) (by decide))
  exact ⟨hpg, master_streamInf_audio_group _ ("src")
    [⟨"1080p", 1920, 1080, 5000000, .transcode⟩] [] hpg⟩

end Goshl
